import Mathlib

/-!
Verification development for the Webhook Delivery Service.

The repository ships the React frontend under src/frontend (and the unnamed
frontend components); the FastAPI backend implementing the delivery engine is
referenced by the README, the docker-compose file and the frontend API calls
but its Python sources are not present.  The backend components (Delivery
State Machine, Backoff Policy, Retry Scheduler, Delivery Attempt Executor,
Delivery Worker Pool) are therefore modelled from the specification, faithful
to its words; each such definition carries a doc comment starting with
`Modelled from the spec:`.  The frontend polling loop `pollDeliveryStatus`
is embedded directly from its JavaScript source.
-/

namespace WebhookDelivery

/-- Modelled from the spec: delivery status, `status ∈ {pending, in_progress,
delivered, failed}` (spec section 3 and 4.3). -/
inductive Status where
  | pending
  | in_progress
  | delivered
  | failed
deriving DecidableEq, Repr

/-- Modelled from the spec: the Executor outcome record, `success` (2xx) or
`failure` (spec section 4.1).  The failure classification and response details
play no role in the state machine decisions and are omitted. -/
inductive Outcome where
  | success
  | failure
deriving DecidableEq, Repr

/-- Modelled from the spec: a DeliveryAttempt row — sequence number and
outcome (spec section 3); append-only. -/
structure AttemptRow where
  seq : Nat
  outcome : Outcome
deriving DecidableEq, Repr

/-- Modelled from the spec: the configuration surface relevant to the state
machine — maximum attempts (spec section 6, `MAX_RETRIES`). -/
structure Config where
  maxAttempts : Nat
deriving DecidableEq, Repr

/-- Modelled from the spec: the mutable record of a single delivery — its
status, attempt counter, and the append-only list of DeliveryAttempt rows
for it (spec section 3). -/
structure DState where
  status : Status
  attemptCount : Nat
  attempts : List AttemptRow
deriving DecidableEq, Repr

/-- Modelled from the spec: initial state on creation is always `pending`
with attempt counter 0 (spec section 4.3) and no attempt rows. -/
def initD : DState := ⟨.pending, 0, []⟩

/-- Modelled from the spec: `pending → in_progress` when the Worker Pool
claims the delivery for execution (spec section 4.3); any request against a
state other than `pending` is a no-op. -/
def claimD (s : DState) : DState :=
  if s.status = .pending then { s with status := .in_progress } else s

/-- Modelled from the spec: the transition out of `in_progress` after an
Executor outcome (spec section 4.3).  The attempt counter increments by one
on every attempt regardless of outcome; one attempt row is appended per
Executor invocation; success yields `delivered`, failure yields `pending`
(retry) while the new counter is below max attempts and `failed` once it
reaches it.  Against a state other than `in_progress` it is a no-op
(terminal states are immutable). -/
def recordOutcome (cfg : Config) (o : Outcome) (s : DState) : DState :=
  if s.status = .in_progress then
    { status :=
        match o with
        | .success => .delivered
        | .failure =>
            if s.attemptCount + 1 < cfg.maxAttempts then .pending else .failed
      attemptCount := s.attemptCount + 1
      attempts := s.attempts ++ [⟨s.attemptCount + 1, o⟩] }
  else s

/-- Modelled from the spec: the State Machine re-enqueues into the Retry
Scheduler exactly on the `in_progress → pending` retry transition (spec
sections 2 and 4.3). -/
def schedulesRetry (cfg : Config) (o : Outcome) (s : DState) : Bool :=
  s.status == .in_progress && o == .failure &&
    decide (s.attemptCount + 1 < cfg.maxAttempts)

/-- Outcome of the most recent DeliveryAttempt row of a delivery, if any. -/
def lastOutcome (s : DState) : Option Outcome :=
  s.attempts.getLast?.map AttemptRow.outcome

/-- Modelled from the spec: the Worker Pool fail-fast (spec sections 4.5 and
7b): a claimed delivery whose referenced subscription no longer exists or is
inactive is marked `failed` immediately as a permanent failure, with no
Executor invocation — so no attempt row is appended and the attempt counter
does not change.  It acts on the claimed (`in_progress`) delivery being
processed; terminal states are immutable and unclaimed deliveries are not
being processed, so it is a no-op elsewhere. -/
def failFastD (s : DState) : DState :=
  if s.status = .in_progress then { s with status := .failed } else s

/-- Modelled from the spec: the operations that may touch a delivery record —
a worker claim, recording an Executor outcome, or the worker fail-fast on an
unresolvable subscription.  All are total and no-ops outside their enabling
state. -/
inductive Step (cfg : Config) : DState → DState → Prop where
  | claim (s : DState) : Step cfg s (claimD s)
  | record (o : Outcome) (s : DState) : Step cfg s (recordOutcome cfg o s)
  | failFast (s : DState) : Step cfg s (failFastD s)

/-- States reachable from creation by any sequence of operations. -/
inductive Reachable (cfg : Config) : DState → Prop where
  | init : Reachable cfg initD
  | step {s t : DState} : Reachable cfg s → Step cfg s t → Reachable cfg t

/-- Basic bookkeeping invariant, independent of the configuration: the
attempt counter equals the number of attempt rows, and a `delivered` delivery
has a most recent attempt with outcome success. -/
def InvBasic (s : DState) : Prop :=
  s.attemptCount = s.attempts.length ∧
  (s.status = .delivered → lastOutcome s = some .success)

/-- Counting/terminal invariant that depends on a positive max-attempts
configuration: non-terminal states have spare attempts, and `failed` states
never exceed the maximum, reaching it exactly on the attempt-exhaustion path
— whose last attempt is then a failure.  A delivery failed by the worker
fail-fast keeps its counter strictly below the maximum. -/
def InvMax (cfg : Config) (s : DState) : Prop :=
  ((s.status = .pending ∨ s.status = .in_progress) →
    s.attemptCount < cfg.maxAttempts) ∧
  (s.status = .failed →
    s.attemptCount ≤ cfg.maxAttempts ∧
    (s.attemptCount = cfg.maxAttempts → lastOutcome s = some .failure))

theorem invBasic_init : InvBasic initD := by
  constructor
  · rfl
  · intro h; cases h

theorem invBasic_claimD {s : DState} (h : InvBasic s) : InvBasic (claimD s) := by
  unfold claimD
  by_cases hp : s.status = .pending
  · refine ⟨?_, ?_⟩
    · simpa [hp] using h.1
    · intro hd
      simp only [hp, if_pos] at hd
      cases hd
  · simpa [hp] using h

theorem lastOutcome_append (s : DState) (r : AttemptRow) :
    lastOutcome { s with attempts := s.attempts ++ [r] } = some r.outcome := by
  simp [lastOutcome]

theorem invBasic_record {cfg : Config} {o : Outcome} {s : DState}
    (h : InvBasic s) : InvBasic (recordOutcome cfg o s) := by
  unfold recordOutcome
  by_cases hp : s.status = .in_progress
  · simp only [hp, if_pos]
    refine ⟨?_, ?_⟩
    · simp [h.1]
    · intro hd
      cases o with
      | success => simp [lastOutcome]
      | failure =>
          exfalso
          by_cases hlt : s.attemptCount + 1 < cfg.maxAttempts <;>
            simp [hlt] at hd
  · simpa [hp] using h

theorem invBasic_failFast {s : DState} (h : InvBasic s) :
    InvBasic (failFastD s) := by
  unfold failFastD
  by_cases hp : s.status = .in_progress
  · simp only [hp, if_true, reduceIte]
    refine ⟨h.1, ?_⟩
    intro hd
    cases hd
  · simpa [hp] using h

theorem invBasic_step {cfg : Config} {s t : DState} (hs : Step cfg s t)
    (h : InvBasic s) : InvBasic t := by
  cases hs with
  | claim s => exact invBasic_claimD h
  | record o s => exact invBasic_record h
  | failFast s => exact invBasic_failFast h

theorem invBasic_reachable {cfg : Config} {s : DState}
    (h : Reachable cfg s) : InvBasic s := by
  induction h with
  | init => exact invBasic_init
  | step _ hstep ih => exact invBasic_step hstep ih

theorem invMax_init {cfg : Config} (hmax : 1 ≤ cfg.maxAttempts) :
    InvMax cfg initD := by
  constructor
  · intro _; exact hmax
  · intro h; cases h

theorem invMax_claimD {cfg : Config} {s : DState} (h : InvMax cfg s) :
    InvMax cfg (claimD s) := by
  unfold claimD
  by_cases hp : s.status = .pending
  · simp only [hp, if_true, reduceIte]
    refine ⟨?_, ?_⟩
    · intro _
      exact h.1 (Or.inl hp)
    · intro hf
      cases hf
  · simpa [hp] using h

theorem invMax_record {cfg : Config} {o : Outcome} {s : DState}
    (h : InvMax cfg s) : InvMax cfg (recordOutcome cfg o s) := by
  unfold recordOutcome
  by_cases hp : s.status = .in_progress
  · have hlt : s.attemptCount < cfg.maxAttempts := h.1 (Or.inr hp)
    simp only [hp, if_pos]
    cases o with
    | success =>
        refine ⟨?_, ?_⟩
        · intro hc; rcases hc with hc | hc <;> cases hc
        · intro hf; cases hf
    | failure =>
        by_cases hlt2 : s.attemptCount + 1 < cfg.maxAttempts
        · refine ⟨?_, ?_⟩
          · intro _; exact hlt2
          · intro hf
            simp only [if_pos hlt2] at hf
            cases hf
        · refine ⟨?_, ?_⟩
          · intro hc
            simp only [if_neg hlt2] at hc
            rcases hc with hc | hc <;> cases hc
          · intro _
            have heq : s.attemptCount + 1 = cfg.maxAttempts := by omega
            refine ⟨?_, ?_⟩
            · show s.attemptCount + 1 ≤ cfg.maxAttempts
              omega
            · intro _
              simpa using lastOutcome_append
                { s with attemptCount := s.attemptCount + 1 }
                ⟨s.attemptCount + 1, .failure⟩
  · simpa [hp] using h

theorem invMax_failFast {cfg : Config} {s : DState} (h : InvMax cfg s) :
    InvMax cfg (failFastD s) := by
  unfold failFastD
  by_cases hp : s.status = .in_progress
  · have hlt : s.attemptCount < cfg.maxAttempts := h.1 (Or.inr hp)
    simp only [hp, if_true, reduceIte]
    refine ⟨?_, ?_⟩
    · intro hc
      rcases hc with hc | hc <;> cases hc
    · intro _
      refine ⟨hlt.le, ?_⟩
      intro heq
      exfalso
      have heq2 : s.attemptCount = cfg.maxAttempts := heq
      omega
  · simpa [hp] using h

theorem invMax_step {cfg : Config} {s t : DState} (hs : Step cfg s t)
    (h : InvMax cfg s) : InvMax cfg t := by
  cases hs with
  | claim s => exact invMax_claimD h
  | record o s => exact invMax_record h
  | failFast s => exact invMax_failFast h

theorem invMax_reachable {cfg : Config} {s : DState}
    (hmax : 1 ≤ cfg.maxAttempts) (h : Reachable cfg s) : InvMax cfg s := by
  induction h with
  | init => exact invMax_init hmax
  | step _ hstep ih => exact invMax_step hstep ih

theorem claimD_terminal {s : DState}
    (h : s.status = .delivered ∨ s.status = .failed) : claimD s = s := by
  unfold claimD
  rcases h with h | h <;> simp [h]

theorem recordOutcome_terminal {cfg : Config} {o : Outcome} {s : DState}
    (h : s.status = .delivered ∨ s.status = .failed) :
    recordOutcome cfg o s = s := by
  unfold recordOutcome
  rcases h with h | h <;> simp [h]

theorem failFastD_terminal {s : DState}
    (h : s.status = .delivered ∨ s.status = .failed) : failFastD s = s := by
  unfold failFastD
  rcases h with h | h <;> simp [h]

theorem step_terminal {cfg : Config} {s t : DState} (hs : Step cfg s t)
    (h : s.status = .delivered ∨ s.status = .failed) : t = s := by
  cases hs with
  | claim s => exact claimD_terminal h
  | record o s => exact recordOutcome_terminal h
  | failFast s => exact failFastD_terminal h

/-- C1: for a delivery in state `in_progress`, a success outcome moves it to
`delivered`; a failure outcome with the (incremented) attempt counter below
max attempts moves it to `pending`; a failure outcome with the counter equal
to max attempts moves it to `failed`; and the attempt counter increments by
exactly one on every attempt regardless of outcome. -/
theorem c1_transition_out_of_in_progress (cfg : Config) (s : DState)
    (h : s.status = .in_progress) :
    (recordOutcome cfg .success s).status = .delivered ∧
    ((recordOutcome cfg .failure s).attemptCount < cfg.maxAttempts →
      (recordOutcome cfg .failure s).status = .pending) ∧
    ((recordOutcome cfg .failure s).attemptCount = cfg.maxAttempts →
      (recordOutcome cfg .failure s).status = .failed) ∧
    (∀ o : Outcome, (recordOutcome cfg o s).attemptCount = s.attemptCount + 1) := by
  unfold recordOutcome
  simp only [h, if_true, reduceIte]
  refine ⟨trivial, ?_, ?_, fun o => trivial⟩
  · intro hlt
    have hlt2 : s.attemptCount + 1 < cfg.maxAttempts := hlt
    show (if s.attemptCount + 1 < cfg.maxAttempts
            then Status.pending else Status.failed) = Status.pending
    rw [if_pos hlt2]
  · intro heq
    have heq2 : s.attemptCount + 1 = cfg.maxAttempts := heq
    show (if s.attemptCount + 1 < cfg.maxAttempts
            then Status.pending else Status.failed) = Status.failed
    rw [if_neg (by omega)]

/-- Witness for C1 at the concrete in-progress state reached by claiming a
fresh delivery under a five-attempt configuration. -/
theorem c1_witness :
    (recordOutcome ⟨5⟩ .success (claimD initD)).status = .delivered ∧
    (recordOutcome ⟨5⟩ .failure (claimD initD)).status = .pending := by
  have h := c1_transition_out_of_in_progress ⟨5⟩ (claimD initD) (by decide)
  exact ⟨h.1, h.2.1 (by decide)⟩

/-- C2 counterexample: the worker fail-fast mandated by spec sections 4.5,
7b and the section 8 deactivated-subscription scenario yields a reachable
delivery with status `failed` whose attempt counter is 0, not the configured
maximum of 5, and which has no attempt row at all — so no failing most
recent attempt. -/
theorem c2_counterexample_fail_fast :
    Reachable ⟨5⟩ (failFastD (claimD initD)) ∧
    (failFastD (claimD initD)).status = .failed ∧
    (failFastD (claimD initD)).attemptCount ≠ (Config.mk 5).maxAttempts ∧
    lastOutcome (failFastD (claimD initD)) ≠ some .failure :=
  ⟨Reachable.step (Reachable.step Reachable.init (Step.claim initD))
     (Step.failFast (claimD initD)),
   by decide, by decide, by decide⟩

/-- C2 (amended): for every reachable delivery, a `failed` status means the
attempt counter never exceeds the configured maximum, and whenever it equals
the maximum — the attempt-exhaustion path — the most recent attempt's
outcome is failure.  From a claimed (`in_progress`) delivery, an Executor
failure that lands in `failed` does so with counter equal to the maximum and
a failing last attempt, while the subscription fail-fast lands in `failed`
with the counter strictly below the maximum and appends no attempt row. -/
theorem c2_failed_characterization (cfg : Config) (hmax : 1 ≤ cfg.maxAttempts) :
    (∀ s : DState, Reachable cfg s → s.status = .failed →
      s.attemptCount ≤ cfg.maxAttempts ∧
      (s.attemptCount = cfg.maxAttempts → lastOutcome s = some .failure)) ∧
    (∀ s : DState, Reachable cfg s → s.status = .in_progress →
      ((recordOutcome cfg .failure s).status = .failed →
        (recordOutcome cfg .failure s).attemptCount = cfg.maxAttempts ∧
        lastOutcome (recordOutcome cfg .failure s) = some .failure) ∧
      ((failFastD s).status = .failed ∧
        (failFastD s).attemptCount < cfg.maxAttempts ∧
        (failFastD s).attempts = s.attempts)) := by
  refine ⟨?_, ?_⟩
  · intro s hr hf
    exact (invMax_reachable hmax hr).2 hf
  · intro s hr hp
    have hlt : s.attemptCount < cfg.maxAttempts :=
      (invMax_reachable hmax hr).1 (Or.inr hp)
    constructor
    · intro hfail
      by_cases hlt2 : s.attemptCount + 1 < cfg.maxAttempts
      · exfalso
        have hst : (recordOutcome cfg .failure s).status = .pending := by
          unfold recordOutcome
          simp [hp, hlt2]
        rw [hst] at hfail
        cases hfail
      · refine ⟨?_, ?_⟩
        · have hc : (recordOutcome cfg .failure s).attemptCount =
              s.attemptCount + 1 := by
            unfold recordOutcome
            simp [hp]
          omega
        · have hat : (recordOutcome cfg .failure s).attempts =
              s.attempts ++ [⟨s.attemptCount + 1, .failure⟩] := by
            unfold recordOutcome
            simp [hp]
          unfold lastOutcome
          rw [hat]
          simp
    · have hff : failFastD s = { s with status := .failed } := by
        unfold failFastD
        rw [if_pos hp]
      rw [hff]
      exact ⟨rfl, hlt, rfl⟩

/-- Witness for C2 (amended): with max attempts 1, exhaustion on the first
failed attempt yields counter 1 = max with a failing last attempt, while the
fail-fast on the same claimed delivery keeps the counter below the
maximum. -/
theorem c2_witness :
    (recordOutcome ⟨1⟩ .failure (claimD initD)).attemptCount =
      (Config.mk 1).maxAttempts ∧
    lastOutcome (recordOutcome ⟨1⟩ .failure (claimD initD)) = some .failure ∧
    (failFastD (claimD initD)).attemptCount < (Config.mk 1).maxAttempts := by
  have h := c2_failed_characterization ⟨1⟩ (by decide)
  have hr : Reachable ⟨1⟩ (claimD initD) :=
    Reachable.step Reachable.init (Step.claim initD)
  have h2 := h.2 (claimD initD) hr (by decide)
  have h3 := h2.1 (by decide)
  exact ⟨h3.1, h3.2, h2.2.2.1⟩

def cfgFive : Config := ⟨5⟩

/-- Scenario of spec section 8: under a five-attempt configuration, two
failed attempts followed by a successful third attempt. -/
def scenarioThird : DState :=
  recordOutcome cfgFive .success (claimD
    (recordOutcome cfgFive .failure (claimD
      (recordOutcome cfgFive .failure (claimD initD)))))

/-- C3: a reachable `delivered` delivery has a most recent attempt with
outcome success, and no operation after `delivered` changes it (in
particular no attempt row is ever appended); the concrete
success-on-attempt-3-of-5 scenario ends `delivered` with exactly 3 attempt
rows, every further operation is a no-op, and no retry is scheduled. -/
theorem c3_delivered_is_terminal_success (cfg : Config) :
    (∀ s : DState, Reachable cfg s → s.status = .delivered →
      lastOutcome s = some .success) ∧
    (∀ s t : DState, s.status = .delivered → Step cfg s t → t = s) ∧
    (scenarioThird.status = .delivered ∧ scenarioThird.attempts.length = 3 ∧
      ∀ o : Outcome, recordOutcome cfgFive o scenarioThird = scenarioThird ∧
        claimD scenarioThird = scenarioThird ∧
        schedulesRetry cfgFive o scenarioThird = false) := by
  refine ⟨?_, ?_, ?_⟩
  · intro s hr hd
    exact (invBasic_reachable hr).2 hd
  · intro s t hd hstep
    exact step_terminal hstep (Or.inl hd)
  · refine ⟨by decide, by decide, ?_⟩
    intro o
    cases o <;> exact ⟨by decide, by decide, by decide⟩

/-- Witness for C3: the scenario conjuncts at the concrete trace. -/
theorem c3_witness :
    scenarioThird.status = .delivered ∧ scenarioThird.attempts.length = 3 :=
  ⟨(c3_delivered_is_terminal_success cfgFive).2.2.1,
   (c3_delivered_is_terminal_success cfgFive).2.2.2.1⟩

/-- C7: for every reachable delivery the recorded attempt counter equals the
number of DeliveryAttempt rows, and each Executor invocation from
`in_progress` appends exactly one row, for successes and failures alike. -/
theorem c7_attempt_count_matches_rows (cfg : Config) {s : DState}
    (hr : Reachable cfg s) :
    s.attemptCount = s.attempts.length ∧
    (∀ o : Outcome, s.status = .in_progress →
      (recordOutcome cfg o s).attempts.length = s.attempts.length + 1) := by
  refine ⟨(invBasic_reachable hr).1, ?_⟩
  intro o hp
  unfold recordOutcome
  simp [hp]

/-- Witness for C7 at the initial state. -/
theorem c7_witness : initD.attemptCount = initD.attempts.length :=
  (c7_attempt_count_matches_rows ⟨5⟩ Reachable.init).1

/-- Position of a status along the linear lifecycle
`pending → in_progress → delivered|failed` of spec sections 2 and 4.3. -/
def statusRank : Status → Nat
  | .pending => 0
  | .in_progress => 1
  | .delivered => 2
  | .failed => 2

def cfgTwo : Config := ⟨2⟩

def inProgressOne : DState := claimD initD

def retriedOne : DState := recordOutcome cfgTwo .failure inProgressOne

/-- C6 counterexample: the retry transition is a reachable step whose status
moves backward along the lifecycle order — from `in_progress` back to
`pending` — so the status is not monotone in the state-machine order. -/
theorem c6_counterexample_retry_moves_backward :
    Reachable cfgTwo inProgressOne ∧
    Step cfgTwo inProgressOne retriedOne ∧
    statusRank retriedOne.status < statusRank inProgressOne.status :=
  ⟨Reachable.step Reachable.init (Step.claim initD),
   Step.record .failure inProgressOne, by decide⟩

/-- C6 (amended): every delivery status is one of exactly
{pending, in_progress, delivered, failed}; across every operation the
attempt counter is monotonically non-decreasing; every status change follows
an edge of the state machine (`pending → in_progress`, or `in_progress` to
`pending`/`delivered`/`failed` — the retry edge moves back to `pending`);
and once a delivery is `delivered` or `failed` no operation changes its
status or attempt counter again. -/
theorem c6_lifecycle_invariants (cfg : Config) (s t : DState)
    (hst : Step cfg s t) :
    (∀ st : Status,
      st = .pending ∨ st = .in_progress ∨ st = .delivered ∨ st = .failed) ∧
    s.attemptCount ≤ t.attemptCount ∧
    (s.status ≠ t.status →
      (s.status = .pending ∧ t.status = .in_progress) ∨
      (s.status = .in_progress ∧
        (t.status = .pending ∨ t.status = .delivered ∨ t.status = .failed))) ∧
    ((s.status = .delivered ∨ s.status = .failed) → t = s) := by
  refine ⟨fun st => by cases st <;> simp, ?_, ?_, fun h => step_terminal hst h⟩
  · cases hst with
    | claim s => unfold claimD; split <;> simp
    | record o s => unfold recordOutcome; split <;> simp
    | failFast s => unfold failFastD; split <;> simp
  · cases hst with
    | claim s =>
        intro hne
        by_cases hp : s.status = .pending
        · left
          refine ⟨hp, ?_⟩
          unfold claimD
          simp [hp]
        · exfalso
          apply hne
          unfold claimD
          simp [hp]
    | record o s =>
        intro hne
        by_cases hp : s.status = .in_progress
        · right
          refine ⟨hp, ?_⟩
          unfold recordOutcome
          simp only [hp, if_true, reduceIte]
          cases o with
          | success => simp
          | failure =>
              by_cases hlt : s.attemptCount + 1 < cfg.maxAttempts <;>
                simp [hlt]
        · exfalso
          apply hne
          unfold recordOutcome
          simp [hp]
    | failFast s =>
        intro hne
        by_cases hp : s.status = .in_progress
        · right
          refine ⟨hp, ?_⟩
          unfold failFastD
          simp [hp]
        · exfalso
          apply hne
          unfold failFastD
          simp [hp]

/-- Witness for C6 (amended): counter monotonicity at the concrete first
claim step. -/
theorem c6_witness : initD.attemptCount ≤ (claimD initD).attemptCount :=
  (c6_lifecycle_invariants ⟨5⟩ initD (claimD initD) (Step.claim initD)).2.1

/-- Modelled from the spec: a Subscription — unique id, target URL, event
types it listens to, optional signing secret, active flag (spec section 3);
owned externally and read-only to the core. -/
structure Subscription where
  id : Nat
  targetUrl : String
  eventTypes : List String
  secret : Option String
  active : Bool
deriving DecidableEq, Repr

/-- Modelled from the spec: failing a delivery immediately as a permanent
failure when its subscription cannot be resolved (spec sections 4.5 and 7). -/
def markFailedPermanent (s : DState) : DState := { s with status := .failed }

/-- Result of a worker processing one claimed delivery: the resulting
delivery record, how many outbound network calls were made for the attempt,
and whether a permanent failure was logged. -/
structure WorkerResult where
  delivery : DState
  networkCalls : Nat
  permanentFailureLogged : Bool
deriving DecidableEq, Repr

/-- Modelled from the spec: Worker Pool handling of one claimed delivery
(spec section 4.5): claim it, resolve the referenced subscription; if the
subscription no longer exists or is inactive, fail the delivery immediately
as a logged permanent failure without attempting network I/O; otherwise
invoke the Executor exactly once (one outbound HTTP call, `execOutcome`
being its result) and report the outcome to the State Machine. -/
def processClaim (cfg : Config) (sub : Option Subscription)
    (execOutcome : Outcome) (s : DState) : WorkerResult :=
  let s1 := claimD s
  match sub with
  | none => ⟨markFailedPermanent s1, 0, true⟩
  | some sb =>
      if sb.active then ⟨recordOutcome cfg execOutcome s1, 1, false⟩
      else ⟨markFailedPermanent s1, 0, true⟩

/-- C5: when the referenced subscription no longer exists or is inactive at
resolution time, the claimed delivery is marked `failed` immediately, a
permanent failure is logged, and zero network calls are made for that
attempt. -/
theorem c5_inactive_subscription_fails_without_network (cfg : Config)
    (sub : Option Subscription) (o : Outcome) (s : DState)
    (h : sub = none ∨ ∃ sb : Subscription, sub = some sb ∧ sb.active = false) :
    (processClaim cfg sub o s).delivery.status = .failed ∧
    (processClaim cfg sub o s).networkCalls = 0 ∧
    (processClaim cfg sub o s).permanentFailureLogged = true := by
  rcases h with h | ⟨sb, hsub, hact⟩
  · subst h
    exact ⟨rfl, rfl, rfl⟩
  · subst hsub
    simp [processClaim, hact, markFailedPermanent]

def inactiveSub : Subscription :=
  ⟨1, "https://example.com/hook", ["user.created"], none, false⟩

/-- Witness for C5 at a concrete deactivated subscription. -/
theorem c5_witness :
    (processClaim ⟨5⟩ (some inactiveSub) .success initD).delivery.status =
      .failed ∧
    (processClaim ⟨5⟩ (some inactiveSub) .success initD).networkCalls = 0 :=
  have h := c5_inactive_subscription_fails_without_network ⟨5⟩
    (some inactiveSub) .success initD (Or.inr ⟨inactiveSub, rfl, rfl⟩)
  ⟨h.1, h.2.1⟩

/-! Backoff Policy (spec section 4.2), modelled over the rationals. -/

/-- Modelled from the spec: Backoff Policy configuration — initial delay,
multiplier, maximum delay cap, symmetric jitter fraction (spec sections 4.2
and 6). -/
structure BackoffConfig where
  initialDelay : ℚ
  multiplier : ℚ
  maxDelay : ℚ
  jitterFrac : ℚ
deriving DecidableEq, Repr

/-- Modelled from the spec: the unjittered delay
`min(max_delay, initial_delay * multiplier^(attempt_number-1))`. -/
def baseDelay (c : BackoffConfig) (n : Nat) : ℚ :=
  min c.maxDelay (c.initialDelay * c.multiplier ^ (n - 1))

/-- Modelled from the spec: `next_delay(attempt_number)` with the uniformly
sampled jitter factor `u ∈ [-jitter_fraction, +jitter_fraction]` made an
explicit argument (the injected randomness source), the perturbed value
clamped to be non-negative. -/
def next_delay (c : BackoffConfig) (n : Nat) (u : ℚ) : ℚ :=
  max 0 (baseDelay c n * (1 + u))

/-- Modelled from the spec: the expected delay of attempt `n`.  The jitter is
sampled uniformly from the symmetric interval `[-jitter_fraction,
+jitter_fraction]`, so its factor has mean 1 and (for jitter fractions at
most 1) the clamp never binds; the expectation is the unjittered base
delay. -/
def expected_delay (c : BackoffConfig) (n : Nat) : ℚ := baseDelay c n

/-- The configuration validity stated by the claim: all four parameters
positive and max delay at least the initial delay. -/
def ClaimValidConfig (c : BackoffConfig) : Prop :=
  0 < c.initialDelay ∧ 0 < c.multiplier ∧ 0 < c.maxDelay ∧
    0 < c.jitterFrac ∧ c.initialDelay ≤ c.maxDelay

def bcHalf : BackoffConfig := ⟨4, 1/2, 8, 1/5⟩

/-- C4 counterexample: with the valid configuration (initial 4, multiplier
1/2, cap 8, jitter 1/5) — all positive, cap ≥ initial — attempt 2 with
jitter sample 0 yields delay 2, below the claimed lower bound
`initial_delay*(1-jitter) = 16/5`, and the expected delay strictly
decreases from attempt 1 to attempt 2. -/
theorem c4_counterexample_fractional_multiplier :
    ClaimValidConfig bcHalf ∧
    -bcHalf.jitterFrac ≤ (0 : ℚ) ∧ (0 : ℚ) ≤ bcHalf.jitterFrac ∧
    ¬ bcHalf.initialDelay * (1 - bcHalf.jitterFrac) ≤ next_delay bcHalf 2 0 ∧
    ¬ expected_delay bcHalf 1 ≤ expected_delay bcHalf 2 := by
  refine ⟨⟨by norm_num [bcHalf], by norm_num [bcHalf], by norm_num [bcHalf],
    by norm_num [bcHalf], by norm_num [bcHalf]⟩, by norm_num [bcHalf],
    by norm_num [bcHalf], ?_, ?_⟩
  · norm_num [next_delay, baseDelay, bcHalf]
  · norm_num [expected_delay, baseDelay, bcHalf]

/-- C4 (amended): for every configuration with positive initial delay,
multiplier at least 1, positive jitter fraction and max delay ≥ initial
delay, every attempt number ≥ 1 and every jitter sample
`u ∈ [-jitter_fraction, +jitter_fraction]`: the delay is the spec formula
`min(max_delay, initial_delay*multiplier^(n-1))` perturbed by the sampled
jitter factor and clamped non-negative; it is non-negative; it lies within
`[initial_delay*(1-jitter), max_delay*(1+jitter)]`; and the expected delay
is monotonically non-decreasing in the attempt number. -/
theorem c4_backoff_bounds (c : BackoffConfig) (hd : 0 < c.initialDelay)
    (hm : 1 ≤ c.multiplier) (hx : c.initialDelay ≤ c.maxDelay)
    (hj : 0 < c.jitterFrac) (n : Nat) (hn : 1 ≤ n) (u : ℚ)
    (hu1 : -c.jitterFrac ≤ u) (hu2 : u ≤ c.jitterFrac) :
    next_delay c n u =
      max 0 (min c.maxDelay (c.initialDelay * c.multiplier ^ (n - 1)) * (1 + u)) ∧
    0 ≤ next_delay c n u ∧
    c.initialDelay * (1 - c.jitterFrac) ≤ next_delay c n u ∧
    next_delay c n u ≤ c.maxDelay * (1 + c.jitterFrac) ∧
    expected_delay c n ≤ expected_delay c (n + 1) := by
  have hmax : 0 < c.maxDelay := lt_of_lt_of_le hd hx
  have hpow : (1 : ℚ) ≤ c.multiplier ^ (n - 1) := one_le_pow₀ hm
  have hbase_lo : c.initialDelay ≤ baseDelay c n := by
    refine le_min hx ?_
    exact le_mul_of_one_le_right hd.le hpow
  have hbase_nonneg : 0 ≤ baseDelay c n := hd.le.trans hbase_lo
  have hbase_hi : baseDelay c n ≤ c.maxDelay := min_le_left _ _
  refine ⟨rfl, le_max_left _ _, ?_, ?_, ?_⟩
  · by_cases hj1 : c.jitterFrac ≤ 1
    · have h1mu : 1 - c.jitterFrac ≤ 1 + u := by linarith
      have h0 : 0 ≤ 1 - c.jitterFrac := by linarith
      calc c.initialDelay * (1 - c.jitterFrac)
          ≤ baseDelay c n * (1 - c.jitterFrac) :=
            mul_le_mul_of_nonneg_right hbase_lo h0
        _ ≤ baseDelay c n * (1 + u) :=
            mul_le_mul_of_nonneg_left h1mu hbase_nonneg
        _ ≤ next_delay c n u := le_max_right _ _
    · have hneg : c.initialDelay * (1 - c.jitterFrac) ≤ 0 := by nlinarith
      exact hneg.trans (le_max_left _ _)
  · refine max_le ?_ ?_
    · positivity
    · by_cases hu0 : 0 ≤ 1 + u
      · calc baseDelay c n * (1 + u)
            ≤ c.maxDelay * (1 + u) :=
              mul_le_mul_of_nonneg_right hbase_hi hu0
          _ ≤ c.maxDelay * (1 + c.jitterFrac) :=
              mul_le_mul_of_nonneg_left (by linarith) hmax.le
      · have : baseDelay c n * (1 + u) ≤ 0 :=
          mul_nonpos_of_nonneg_of_nonpos hbase_nonneg (by linarith)
        exact this.trans (by positivity)
  · unfold expected_delay baseDelay
    refine min_le_min le_rfl ?_
    refine mul_le_mul_of_nonneg_left ?_ hd.le
    exact pow_le_pow_right₀ hm (by omega)

/-- Witness for C4 (amended) at the spec default configuration (initial 1s,
multiplier 2, cap 30s, jitter 1/5), attempt 3, jitter sample 1/10. -/
theorem c4_witness :
    (1 : ℚ) * (1 - 1/5) ≤ next_delay ⟨1, 2, 30, 1/5⟩ 3 (1/10) ∧
    next_delay ⟨1, 2, 30, 1/5⟩ 3 (1/10) ≤ 30 * (1 + 1/5) := by
  have h := c4_backoff_bounds ⟨1, 2, 30, 1/5⟩ (by norm_num) (by norm_num)
    (by norm_num) (by norm_num) 3 (by norm_num) (1/10) (by norm_num)
    (by norm_num)
  exact ⟨h.2.2.1, h.2.2.2.1⟩

/-! Retry Scheduler (spec section 4.4). -/

/-- Modelled from the spec: a RetryTicket — delivery id and next-due
timestamp (spec section 3). -/
structure Ticket where
  deliveryId : Nat
  dueAt : Nat
deriving DecidableEq, Repr

/-- Modelled from the spec: `claim_due(now)` atomically removes and returns
all tickets whose due-time ≤ now (spec section 4.4).  The first component is
the claimed tickets, the second the scheduler state left behind; the spec
requires the whole operation to be atomic, so concurrent callers are
modelled by their linearization — consecutive applications to the evolving
state. -/
def claim_due (now : Nat) (tickets : List Ticket) : List Ticket × List Ticket :=
  (tickets.filter (fun t => decide (t.dueAt ≤ now)),
   tickets.filter (fun t => decide (now < t.dueAt)))

/-- C9: `claim_due(now)` returns exactly the tickets with due-time ≤ now and
removes them from the scheduler state, and for any pair of (linearized
concurrent) `claim_due` calls, no ticket claimed by the first is ever
obtained by the second — each due ticket is claimed by exactly one
caller. -/
theorem c9_claim_due_exactly_once (now1 now2 : Nat) (ts : List Ticket) :
    (∀ t : Ticket, t ∈ (claim_due now1 ts).1 ↔ t ∈ ts ∧ t.dueAt ≤ now1) ∧
    (∀ t : Ticket, t ∈ (claim_due now1 ts).2 ↔ t ∈ ts ∧ now1 < t.dueAt) ∧
    (∀ t : Ticket, t ∈ (claim_due now1 ts).1 →
      t ∉ (claim_due now2 (claim_due now1 ts).2).1) := by
  refine ⟨?_, ?_, ?_⟩
  · intro t
    simp [claim_due, List.mem_filter]
  · intro t
    simp [claim_due, List.mem_filter]
  · intro t h1 h2
    simp only [claim_due, List.mem_filter, decide_eq_true_eq] at h1 h2
    omega

/-- Witness for C9: a due ticket is claimed by the first call and not by the
second. -/
theorem c9_witness :
    Ticket.mk 1 5 ∈ (claim_due 10 [Ticket.mk 1 5, Ticket.mk 2 100]).1 ∧
    Ticket.mk 1 5 ∉
      (claim_due 200 (claim_due 10 [Ticket.mk 1 5, Ticket.mk 2 100]).2).1 := by
  have h := c9_claim_due_exactly_once 10 200 [Ticket.mk 1 5, Ticket.mk 2 100]
  have hmem : Ticket.mk 1 5 ∈ (claim_due 10 [Ticket.mk 1 5, Ticket.mk 2 100]).1 :=
    (h.1 (Ticket.mk 1 5)).mpr ⟨by decide, by decide⟩
  exact ⟨hmem, h.2.2 (Ticket.mk 1 5) hmem⟩

/-! Delivery Attempt Executor signature (spec section 4.1). -/

/-- Modelled from the spec: the payload signature the Executor computes —
an HMAC over the raw body using the subscription secret (spec sections 4.1
and 8).  The HMAC itself is absent with the backend sources; it is modelled
as an ideal MAC, a value determined exactly by the secret and the raw
payload bytes, deterministic and collision-free as the spec scenario
asserts. -/
structure MacValue where
  ofSecret : String
  ofPayload : String
deriving DecidableEq, Repr

/-- Modelled from the spec: computing the HMAC signature of the raw body
under the configured secret. -/
def hmacSign (secret : String) (body : String) : MacValue := ⟨secret, body⟩

/-- Modelled from the spec: the Executor attaches the signature header
exactly when a secret is configured on the subscription and omits it
otherwise (spec section 4.1). -/
def signatureHeader (secret : Option String) (body : String) : Option MacValue :=
  secret.map (fun sec => hmacSign sec body)

/-- C8: the signature computation is deterministic — identical payload bytes
and secret give an identical header value; runs differing in the payload or
the secret give different values; and the header is attached exactly when a
secret is configured. -/
theorem c8_signature_deterministic (s1 s2 p1 p2 : String) :
    (s1 = s2 → p1 = p2 → hmacSign s1 p1 = hmacSign s2 p2) ∧
    (s1 ≠ s2 ∨ p1 ≠ p2 → hmacSign s1 p1 ≠ hmacSign s2 p2) ∧
    (∀ (sec : Option String) (b : String),
      (signatureHeader sec b).isSome = sec.isSome) := by
  refine ⟨?_, ?_, ?_⟩
  · intro hs hp
    rw [hs, hp]
  · intro hne heq
    have hs : s1 = s2 := congrArg MacValue.ofSecret heq
    have hp : p1 = p2 := congrArg MacValue.ofPayload heq
    rcases hne with h | h <;> exact h (by assumption)
  · intro sec b
    cases sec <;> simp [signatureHeader]

/-- Witness for C8 at the spec scenario secret. -/
theorem c8_witness :
    hmacSign "s3cr3t" "payload-a" = hmacSign "s3cr3t" "payload-a" ∧
    hmacSign "s3cr3t" "payload-a" ≠ hmacSign "s3cr3t" "payload-b" := by
  have h := c8_signature_deterministic "s3cr3t" "s3cr3t" "payload-a" "payload-b"
  have hdet := c8_signature_deterministic "s3cr3t" "s3cr3t" "payload-a" "payload-a"
  exact ⟨hdet.1 rfl rfl, h.2.1 (Or.inr (by decide))⟩

/-! Frontend polling loop `pollDeliveryStatus` (WebhookTester component),
embedded from its JavaScript source. -/

/-- What one `api.get` issued by the polling callback produces: a response
carrying a delivery status string, or a request error caught by the
callback. -/
inductive PollResponse where
  | ok (status : String)
  | err
deriving DecidableEq, Repr

/-- The local `maxAttempts` constant of `pollDeliveryStatus`. -/
def pollMaxAttempts : Nat := 10

/-- The clearing condition evaluated by the `setInterval` callback at one
tick: on a caught request error the interval is cleared; on a response it is
cleared when the response status is not the string pending or
`attempts >= maxAttempts` holds, where `attempts` counts previously
completed ticks. -/
def pollCleared (r : PollResponse) (attempts : Nat) : Bool :=
  match r with
  | .err => true
  | .ok st => decide (st ≠ "pending") || decide (pollMaxAttempts ≤ attempts)

/-- Runs the polling callback from tick `t` (with `attempts = t`) for at
most `fuel` more ticks, returning the total number of polls (GET requests)
issued once the interval is cleared. -/
def pollAux (resp : Nat → PollResponse) : Nat → Nat → Nat
  | 0, t => t
  | fuel + 1, t =>
      if pollCleared (resp t) t then t + 1 else pollAux resp fuel (t + 1)

/-- Number of GET requests `pollDeliveryStatus` issues against the given
sequence of responses before the interval is cleared.  Eleven ticks of fuel
suffice because the callback always clears once `attempts` reaches
`maxAttempts = 10`. -/
def pollsMade (resp : Nat → PollResponse) : Nat :=
  pollAux resp (pollMaxAttempts + 1) 0

theorem pollCleared_at_max (r : PollResponse) :
    pollCleared r pollMaxAttempts = true := by
  cases r with
  | err => rfl
  | ok st => simp [pollCleared]

theorem pollAux_spec (resp : Nat → PollResponse) :
    ∀ fuel t, pollMaxAttempts < fuel + t → t ≤ pollMaxAttempts →
      pollAux resp fuel t ≤ pollMaxAttempts + 1 ∧
      t < pollAux resp fuel t ∧
      pollCleared (resp (pollAux resp fuel t - 1)) (pollAux resp fuel t - 1) =
        true ∧
      (∀ u, t ≤ u → u + 1 < pollAux resp fuel t →
        pollCleared (resp u) u = false) := by
  intro fuel
  induction fuel with
  | zero =>
      intro t h1 h2
      exfalso
      omega
  | succ f ih =>
      intro t h1 h2
      by_cases hc : pollCleared (resp t) t = true
      · rw [pollAux, if_pos hc]
        refine ⟨by omega, by omega, by simpa using hc, ?_⟩
        intro u hu1 hu2
        exfalso
        omega
      · have hcf : pollCleared (resp t) t = false :=
          Bool.eq_false_iff.mpr hc
        have ht10 : t ≠ pollMaxAttempts := by
          intro heq
          rw [heq, pollCleared_at_max] at hcf
          cases hcf
        have h1' : pollMaxAttempts < f + (t + 1) := by omega
        have h2' : t + 1 ≤ pollMaxAttempts := by omega
        have hrec := ih (t + 1) h1' h2'
        rw [pollAux, if_neg hc]
        refine ⟨hrec.1, by omega, hrec.2.2.1, ?_⟩
        intro u hu1 hu2
        by_cases hut : u = t
        · rw [hut]; exact hcf
        · exact hrec.2.2.2 u (by omega) hu2

/-- C10: against every sequence of responses, `pollDeliveryStatus` issues at
most 11 polls; the interval is cleared by the poll it stops at (the first
non-pending response, the first request error, or the poll at which the
local counter has reached its maximum of 10); and no earlier poll satisfied
the clearing condition. -/
theorem c10_poll_terminates (resp : Nat → PollResponse) :
    pollsMade resp ≤ 11 ∧
    0 < pollsMade resp ∧
    pollCleared (resp (pollsMade resp - 1)) (pollsMade resp - 1) = true ∧
    (∀ t, t + 1 < pollsMade resp → pollCleared (resp t) t = false) := by
  have h := pollAux_spec resp (pollMaxAttempts + 1) 0 (by omega) (by omega)
  exact ⟨h.1, h.2.1, h.2.2.1, fun t => h.2.2.2 t (Nat.zero_le t)⟩

/-- Witness for C10 on the always-pending response sequence: exactly 11
polls are made. -/
theorem c10_witness :
    pollsMade (fun _ => PollResponse.ok "pending") ≤ 11 ∧
    pollsMade (fun _ => PollResponse.ok "pending") = 11 := by
  refine ⟨(c10_poll_terminates (fun _ => PollResponse.ok "pending")).1, ?_⟩
  decide

end WebhookDelivery
